import Mathlib

/-!
Verification of the MCP card-generator and attendance-checker scripts.

The definitions below are a shallow embedding of the two Python source
files of the repository:

- streamlit_app.py : the ID allocator (next_mcp_id_func), the PDF layout
  loop (make_pdf) and the batch-CSV processing branch;
- attendance_checker.py : the attendance loader and the membership lookup.

Machine strings are modelled with Lean's String, Python str.strip with an
explicit dropWhile on both ends, and Python's %04d formatting with an
explicit decimal printer. Floating point page coordinates are modelled
over the rationals (the formulas of the source are exact rational
arithmetic on the configured sizes).
-/

namespace CardGen

/-! ## Decimal formatting, modelling Python f-string 04d padding -/

/-- Character for a single decimal digit d (0..9). -/
def digitChar (d : Nat) : Char := Char.ofNat (48 + d)

/-- Little-endian decimal digit characters of v, driven by fuel
(structural recursion; fuel at least v suffices). -/
def decCharsAux : Nat → Nat → List Char
  | 0, _ => []
  | _ + 1, 0 => []
  | fuel + 1, v + 1 => digitChar ((v + 1) % 10) :: decCharsAux fuel ((v + 1) / 10)

/-- Big-endian decimal digit characters of n (empty for 0, as used below
only under padding, matching Python 04d output for all inputs). -/
def decChars (n : Nat) : List Char := (decCharsAux n n).reverse

/-- Python f-string 04d formatting: pad the decimal representation with
leading zeros to at least four characters. -/
def pad4 (n : Nat) : String := ⟨List.replicate (4 - (decChars n).length) '0' ++ decChars n⟩

/-- Numeric value of a digit character. -/
def digitVal (c : Char) : Nat := c.toNat - 48

/-- Value of a big-endian digit-character list. -/
def parseDec (cs : List Char) : Nat := cs.foldl (fun a c => a * 10 + digitVal c) 0

/-- Value of a little-endian digit-character list. -/
def parseRev (cs : List Char) : Nat := cs.foldr (fun c a => a * 10 + digitVal c) 0

/-! ## ID allocator (next_mcp_id_func)

The generator builds base = prefix-yy- once, then loops over n from the
start value, yielding base followed by the 04d rendering of n whenever
that string is not in the taken set. -/

/-- Candidate string produced at counter value n by next_mcp_id_func. -/
def next_mcp_candidate (pre yy : String) (n : Nat) : String :=
  pre ++ "-" ++ yy ++ "-" ++ pad4 n

/-- Values yielded by running the generator loop of next_mcp_id_func for
a given number of iterations, starting the counter at start: iteration i
examines the candidate at counter start + i and yields it exactly when it
is not in the taken set. -/
def next_mcp_id_yields (pre yy : String) (taken : List String) (start steps : Nat) :
    List String :=
  (List.range steps).filterMap fun i =>
    let c := next_mcp_candidate pre yy (start + i)
    if taken.contains c then none else some c

/-- Counter values at which the generator loop yields during the first
steps iterations. -/
def next_mcp_id_indices (pre yy : String) (taken : List String) (start steps : Nat) :
    List Nat :=
  ((List.range steps).map (start + ·)).filter
    fun k => !(taken.contains (next_mcp_candidate pre yy k))

/-! ## Single-step view of the generator

Each call of next on the generator advances the counter to the first
value at or after the current one whose candidate is free, yields that
candidate, and leaves the counter just past it. -/

/-- Fuel-driven search for the next counter value whose candidate is not
in the taken set. -/
def findFree (pre yy : String) (taken : List String) : Nat → Nat → Option Nat
  | 0, _ => none
  | fuel + 1, n =>
      if taken.contains (next_mcp_candidate pre yy n) then
        findFree pre yy taken fuel (n + 1)
      else some n

/-- Counter value at which the generator yields next, starting from
counter value n: the first value at or after n whose candidate string is
not in the taken set. -/
def next_free (pre yy : String) (taken : List String) (n : Nat) : Nat :=
  (findFree pre yy taken (taken.length + 1) n).getD n

/-! ## Page layout (CONFIG constants and make_pdf)

Coordinates are modelled over the rationals; the source formulas are
exact arithmetic over the configured sizes. One point is 1, one inch is
72 points, the Letter page is 612 x 792 points. -/

def inch : ℚ := 72

def CARD_W : ℚ := 3.5 * inch

def CARD_H : ℚ := 2.25 * inch

def MARGIN_X : ℚ := 0.5 * inch

def MARGIN_Y : ℚ := 0.5 * inch

def COLS : Nat := 2

def ROWS : Nat := 4

/-- Horizontal spacing between columns (x_margin in make_pdf). -/
def GAP_X : ℚ := 0.30 * inch

/-- Vertical spacing between rows (y_margin in make_pdf). -/
def GAP_Y : ℚ := 0.20 * inch

def PAGE_W : ℚ := 612

def PAGE_H : ℚ := 792

/-- One card record, the dict passed to make_pdf. -/
structure StudentCard where
  id : String
  first : String
  last : String
  grad_year : String
deriving DecidableEq

/-- Observable output actions of make_pdf on the canvas: drawing a card
at a bottom-left coordinate, or finishing a page. -/
inductive PdfOp where
  | draw (x y : ℚ) (card : StudentCard)
  | showPage
deriving DecidableEq

/-- The drawing loop of make_pdf: for each card compute column and row
from the running index, draw at the derived coordinate, and emit a page
break after each full grid; after the loop, flush a trailing partially
filled page. -/
def makePdfOps : List StudentCard → Nat → List PdfOp
  | [], i => if i % (COLS * ROWS) ≠ 0 then [PdfOp.showPage] else []
  | card :: rest, i =>
      let col : Nat := i % COLS
      let row : Nat := (i / COLS) % ROWS
      let x : ℚ := MARGIN_X + (col : ℚ) * (CARD_W + GAP_X)
      let y : ℚ := PAGE_H - MARGIN_Y - ((row : ℚ) + 1) * CARD_H - (row : ℚ) * GAP_Y
      PdfOp.draw x y card ::
        ((if (i + 1) % (COLS * ROWS) = 0 then [PdfOp.showPage] else []) ++
          makePdfOps rest (i + 1))

/-- make_pdf runs the drawing loop starting at index 0. -/
def make_pdf (cards : List StudentCard) : List PdfOp := makePdfOps cards 0

def drawOf : PdfOp → Option (ℚ × ℚ × StudentCard)
  | .draw x y c => some (x, y, c)
  | .showPage => none

def isShowPage : PdfOp → Bool
  | .draw _ _ _ => false
  | .showPage => true

/-- Bottom-left x coordinate of the card at 0-based input position i. -/
def cardX (i : Nat) : ℚ := MARGIN_X + ((i % COLS : Nat) : ℚ) * (CARD_W + GAP_X)

/-- Bottom-left y coordinate of the card at 0-based input position i
(rows numbered top-down). -/
def cardY (i : Nat) : ℚ :=
  PAGE_H - MARGIN_Y - (((i / COLS) % ROWS : Nat) + 1 : ℚ) * CARD_H -
    (((i / COLS) % ROWS : Nat) : ℚ) * GAP_Y

/-! ## Python str.strip -/

/-- Python str.strip on the character list: drop whitespace from both
ends. -/
def pyStripData (l : List Char) : List Char :=
  ((l.dropWhile Char.isWhitespace).reverse.dropWhile Char.isWhitespace).reverse

/-- Python str.strip. -/
def pyStrip (s : String) : String := ⟨pyStripData s.data⟩

/-! ## Batch CSV processing

A CSV row is the association of header name to cell value, as produced
by csv.DictReader. Cell access r.get(h) with an or-empty default is
rowGet; the dict assignment writing an auto-assigned ID back is rowSet. -/

/-- One CSV row: header name to cell value. -/
abbrev Row := List (String × String)

/-- Python (r.get(h) or ""): the value under header h, or empty. -/
def rowGet (r : Row) (h : String) : String :=
  ((r.find? fun p => p.1 == h).map Prod.snd).getD ""

/-- Python dict assignment r[h] = v. -/
def rowSet (r : Row) (h v : String) : Row :=
  (h, v) :: r.filter fun p => p.1 != h

/-- Python str.lower, per character (the headers and IDs involved are
plain ASCII text). -/
def pyLower (s : String) : String := ⟨s.data.map Char.toLower⟩

/-- The headers_lower dict comprehension: lowercased header name to
original header name, a later duplicate overwriting an earlier one. -/
def headersLower (headers : List String) (key : String) : Option String :=
  headers.reverse.find? fun h => pyLower h == key

/-- The three required lowercased header names, in source order. -/
def requiredHeaders : List String := ["student id", "first name", "last name"]

/-- The required headers absent from the uploaded header row. -/
def missingHeaders (headers : List String) : List String :=
  requiredHeaders.filter fun h => (headersLower headers h).isNone

/-- The used_ids set: the non-empty stripped Student ID cells of the
uploaded rows. -/
def takenOf (rows : List Row) (sidH : String) : List String :=
  (rows.map fun r => pyStrip (rowGet r sidH)).filter fun s => s != ""

/-- A row eligible for card rendering: stripped ID, first name and last
name all non-empty. -/
def viableRow (sidH fnH lnH : String) (r : Row) : Bool :=
  (pyStrip (rowGet r sidH) != "") && (pyStrip (rowGet r fnH) != "") &&
    (pyStrip (rowGet r lnH) != "")

/-- The body of the batch loop for one row: strip the three cells (and
the optional grad year); if the ID is empty and auto-assign is on, pull
the next ID from the generator and write it back into the row; then
append a card exactly when ID, first and last are all non-empty. Returns
the generator counter, the (possibly updated) row, and the optional
card. -/
def stepRow (auto : Bool) (pre yy : String) (taken : List String)
    (sidH fnH lnH : String) (gyH : Option String) (n : Nat) (r : Row) :
    Nat × Row × Option StudentCard :=
  let sid0 := pyStrip (rowGet r sidH)
  let first := pyStrip (rowGet r fnH)
  let last := pyStrip (rowGet r lnH)
  let gy := match gyH with
    | some h => pyStrip (rowGet r h)
    | none => ""
  if sid0 = "" ∧ auto = true then
    let k := next_free pre yy taken n
    let sid := next_mcp_candidate pre yy k
    (k + 1, rowSet r sidH sid,
      if sid ≠ "" ∧ first ≠ "" ∧ last ≠ "" then some ⟨sid, first, last, gy⟩ else none)
  else
    (n, r,
      if sid0 ≠ "" ∧ first ≠ "" ∧ last ≠ "" then some ⟨sid0, first, last, gy⟩ else none)

/-- The batch loop over all rows, threading the generator counter and
collecting the cards and the updated rows in order. -/
def processRows (auto : Bool) (pre yy : String) (taken : List String)
    (sidH fnH lnH : String) (gyH : Option String) :
    Nat → List Row → List StudentCard × List Row × Nat
  | n, [] => ([], [], n)
  | n, r :: rest =>
      let s := stepRow auto pre yy taken sidH fnH lnH gyH n r
      let t := processRows auto pre yy taken sidH fnH lnH gyH s.1 rest
      (match s.2.2 with
       | some c => c :: t.1
       | none => t.1,
       s.2.1 :: t.2.1, t.2.2)

/-- Result of a successful batch run: the cards for the PDF, the updated
rows for the exported CSV, the reported count of skipped rows, and the
final generator counter. -/
structure BatchResult where
  cards : List StudentCard
  updatedRows : List Row
  skipped : Nat
  finalState : Nat
deriving DecidableEq

/-- The batch branch: map lowercased header names to the original ones;
if any required header is absent, fail with the list of absent required
headers before touching any row; otherwise build the used-ID set, run
the loop over all rows, and report the rows missing id, first or last
(judged on the updated rows, which the loop mutates in place). -/
def runBatch (headers : List String) (rows : List Row) (auto : Bool)
    (pre yy : String) (start : Nat) : Except (List String) BatchResult :=
  match headersLower headers "student id", headersLower headers "first name",
      headersLower headers "last name" with
  | some sidH, some fnH, some lnH =>
      let gyH := headersLower headers "grad year"
      let taken := takenOf rows sidH
      let t := processRows auto pre yy taken sidH fnH lnH gyH start rows
      Except.ok ⟨t.1, t.2.1,
        (t.2.1.filter fun r => !viableRow sidH fnH lnH r).length, t.2.2⟩
  | _, _, _ => Except.error (missingHeaders headers)

/-- One line of the exported CSV: the updated row read back in the
original header order, as csv.DictWriter does. -/
def exportRow (headers : List String) (r : Row) : List String :=
  headers.map fun h => rowGet r h

/-- The exported updated CSV, one line per row. -/
def exportTable (headers : List String) (rows : List Row) : List (List String) :=
  rows.map (exportRow headers)

/-- Re-importing a CSV: each line is read back as the association of the
header row to the line's cells. -/
def reimport (headers : List String) (table : List (List String)) : List Row :=
  table.map fun vs => headers.zip vs

/-- Header row of the spec's batch walkthrough example. -/
def exHeaders : List String := ["Student ID", "First Name", "Last Name"]

/-- Data rows of the spec's batch walkthrough example. -/
def exRows : List Row :=
  [[("Student ID", ""), ("First Name", "Ann"), ("Last Name", "Lee")],
   [("Student ID", "S2"), ("First Name", "Bo"), ("Last Name", "Ng")]]

/-- Result of the batch walkthrough example. -/
def exRes : BatchResult :=
  ⟨[⟨"MCP-26-0001", "Ann", "Lee", ""⟩, ⟨"S2", "Bo", "Ng", ""⟩],
   [[("Student ID", "MCP-26-0001"), ("First Name", "Ann"), ("Last Name", "Lee")],
    [("Student ID", "S2"), ("First Name", "Bo"), ("Last Name", "Ng")]], 0, 2⟩

/-- A row with a whitespace-only ID and an empty first name. -/
def exBlankRow : Row := [("Student ID", "  "), ("First Name", ""), ("Last Name", "Lee")]

end CardGen

namespace Attendance

open CardGen (pyStrip pyLower parseDec)

/-- The attendance spreadsheet: the existing tabs, each with the cell
values of its StudentID column. -/
abbrev Sheet := List (String × List String)

/-- Python int() as applied to a seminar tab name: an optional minus
sign followed by decimal digits. -/
def pyInt? (s : String) : Option Int :=
  match s.data with
  | [] => none
  | '-' :: rest =>
      if rest ≠ [] ∧ rest.all Char.isDigit then some (-(parseDec rest : Int)) else none
  | cs => if cs.all Char.isDigit then some ((parseDec cs : Int)) else none

/-- The attendee-ID set loaded for one tab: each cell of the tab's
StudentID column, stripped, kept when the cell is non-empty, its
stripped form is non-empty and its stripped lowercased form is not the
header word studentid; a tab missing from the spreadsheet is tolerated
and loaded as the empty set. -/
def loadTab (sheet : Sheet) (t : String) : List String :=
  match sheet.find? (fun p => p.1 == t) with
  | some p => (p.2.filter fun v =>
      (v != "") && (pyStrip v != "") && (pyLower (pyStrip v) != "studentid")).map pyStrip
  | none => []

/-- The tabs in which the queried student ID appears. -/
def presentTabs (sheet : Sheet) (tabs : List String) (sid : String) : List String :=
  tabs.filter fun t => (loadTab sheet t).contains sid

/-- The displayed count of seminars attended. -/
def attendCount (sheet : Sheet) (tabs : List String) (sid : String) : Nat :=
  (presentTabs sheet tabs sid).length

/-- Numeric comparison of tab names by their int() value, the sort key
of the try branch. -/
def numLe (a b : String) : Prop := (pyInt? a).getD 0 ≤ (pyInt? b).getD 0

instance : DecidableRel numLe := fun _ _ => Int.decLe _ _

instance : IsTotal String numLe := ⟨fun _ _ => Int.le_total _ _⟩

instance : IsTrans String numLe := ⟨fun _ _ _ => Int.le_trans⟩

/-- The display ordering of a list of seminar names: sorted by int()
value when every name parses as an integer (the try branch), sorted
lexicographically otherwise (the except branch). -/
def displaySort (ts : List String) : List String :=
  if ts.all fun t => (pyInt? t).isSome then ts.insertionSort numLe
  else ts.insertionSort (· ≤ ·)

/-- The displayed list of attended seminars. -/
def attendedDisplay (sheet : Sheet) (tabs : List String) (sid : String) : List String :=
  displaySort (presentTabs sheet tabs sid)

/-- The ordering of all seminar tabs in the overview table. -/
def overviewTabs (tabs : List String) : List String := displaySort tabs

end Attendance

namespace CardGen

theorem digitVal_digitChar : ∀ d : Nat, d < 10 → digitVal (digitChar d) = d := by decide

theorem parseRev_decCharsAux : ∀ fuel v : Nat, v ≤ fuel → parseRev (decCharsAux fuel v) = v := by
  intro fuel
  induction fuel with
  | zero => intro v hv; interval_cases v; rfl
  | succ f ih =>
    intro v hv
    match v with
    | 0 => rfl
    | w + 1 =>
      have hdiv : (w + 1) / 10 ≤ f := by
        have h1 : (w + 1) / 10 < w + 1 := Nat.div_lt_self (Nat.succ_pos w) (by omega)
        omega
      have hrest := ih ((w + 1) / 10) hdiv
      have hd : digitVal (digitChar ((w + 1) % 10)) = (w + 1) % 10 :=
        digitVal_digitChar _ (Nat.mod_lt _ (by omega))
      show parseRev (digitChar ((w + 1) % 10) :: decCharsAux f ((w + 1) / 10)) = w + 1
      show parseRev (decCharsAux f ((w + 1) / 10)) * 10 + digitVal (digitChar ((w + 1) % 10)) = w + 1
      rw [hrest, hd]
      omega

theorem parseDec_reverse (l : List Char) : parseDec l.reverse = parseRev l := by
  unfold parseDec parseRev
  rw [List.foldl_reverse]

theorem parseDec_replicate_zero_append (k : Nat) (cs : List Char) :
    parseDec (List.replicate k '0' ++ cs) = parseDec cs := by
  unfold parseDec
  rw [List.foldl_append]
  have : List.foldl (fun a c => a * 10 + digitVal c) 0 (List.replicate k '0') = 0 := by
    induction k with
    | zero => rfl
    | succ m ih =>
      rw [List.replicate_succ, List.foldl_cons]
      simpa [digitVal] using ih
  rw [this]

theorem parseDec_pad4 (n : Nat) : parseDec (pad4 n).data = n := by
  show parseDec (List.replicate (4 - (decChars n).length) '0' ++ decChars n) = n
  rw [parseDec_replicate_zero_append]
  unfold decChars
  rw [parseDec_reverse]
  exact parseRev_decCharsAux n n le_rfl

theorem pad4_injective : Function.Injective pad4 := by
  intro a b h
  have := congrArg (fun s => parseDec s.data) h
  simpa [parseDec_pad4] using this

theorem next_mcp_candidate_injective (pre yy : String) :
    Function.Injective (next_mcp_candidate pre yy) := by
  intro a b h
  apply pad4_injective
  apply String.ext
  have hd := congrArg String.data h
  simp only [next_mcp_candidate, String.data_append] at hd
  exact List.append_cancel_left hd

theorem next_mcp_id_yields_eq_map (pre yy : String) (taken : List String)
    (start steps : Nat) :
    next_mcp_id_yields pre yy taken start steps =
      (next_mcp_id_indices pre yy taken start steps).map (next_mcp_candidate pre yy) := by
  unfold next_mcp_id_yields next_mcp_id_indices
  induction List.range steps with
  | nil => rfl
  | cons i l ih =>
    by_cases h : next_mcp_candidate pre yy (start + i) ∈ taken <;>
      simp only [List.filterMap_cons, List.map_cons, List.filter_cons] <;>
      simp [h] <;> simpa using ih

theorem next_mcp_id_indices_sorted (pre yy : String) (taken : List String)
    (start steps : Nat) :
    (next_mcp_id_indices pre yy taken start steps).Pairwise (· < ·) := by
  apply List.Pairwise.filter
  apply List.Pairwise.map
  · intro a b h
    exact Nat.add_lt_add_left h start
  · exact List.pairwise_lt_range steps

theorem next_mcp_id_indices_mem (pre yy : String) (taken : List String)
    (start steps : Nat) (n : Nat)
    (h : n ∈ next_mcp_id_indices pre yy taken start steps) :
    start ≤ n ∧ next_mcp_candidate pre yy n ∉ taken := by
  unfold next_mcp_id_indices at h
  rw [List.mem_filter] at h
  obtain ⟨hmem, hfilt⟩ := h
  simp only [List.mem_map, List.mem_range] at hmem
  obtain ⟨i, _, rfl⟩ := hmem
  refine ⟨Nat.le_add_right _ _, ?_⟩
  intro hc
  rw [Bool.not_eq_true', ← Bool.not_eq_true] at hfilt
  exact hfilt (List.elem_iff.mpr hc)

theorem next_mcp_id_yields_not_taken (pre yy : String) (taken : List String)
    (start steps : Nat) (s : String)
    (h : s ∈ next_mcp_id_yields pre yy taken start steps) : s ∉ taken := by
  rw [next_mcp_id_yields_eq_map] at h
  rw [List.mem_map] at h
  obtain ⟨n, hn, rfl⟩ := h
  exact (next_mcp_id_indices_mem pre yy taken start steps n hn).2

theorem next_mcp_id_yields_ignores_non_candidates (pre yy : String)
    (taken : List String) (start steps : Nat) (s : String)
    (hs : ∀ n : Nat, s ≠ next_mcp_candidate pre yy n) :
    next_mcp_id_yields pre yy (s :: taken) start steps =
      next_mcp_id_yields pre yy taken start steps := by
  unfold next_mcp_id_yields
  apply List.filterMap_congr
  intro i _
  have hne : (next_mcp_candidate pre yy (start + i) == s) = false := by
    rw [beq_eq_false_iff_ne]
    intro hb
    exact hs (start + i) hb.symm
  show (if (s :: taken).contains (next_mcp_candidate pre yy (start + i)) then _ else _)
      = (if taken.contains (next_mcp_candidate pre yy (start + i)) then _ else _)
  have : (s :: taken).contains (next_mcp_candidate pre yy (start + i))
      = taken.contains (next_mcp_candidate pre yy (start + i)) := by
    simp only [List.contains_cons, hne, Bool.false_or]
  rw [this]

theorem next_mcp_id_yields_length (pre yy : String) (taken : List String)
    (start steps : Nat) :
    steps - taken.length ≤ (next_mcp_id_yields pre yy taken start steps).length := by
  rw [next_mcp_id_yields_eq_map, List.length_map]
  unfold next_mcp_id_indices
  set N : List Nat := (List.range steps).map (start + ·) with hN
  have hlenN : N.length = steps := by simp [hN]
  have hnodup : N.Nodup := by
    apply List.Nodup.map
    · intro a b h
      exact Nat.add_left_cancel h
    · exact List.nodup_range steps
  set p : Nat → Bool := fun k => !(taken.contains (next_mcp_candidate pre yy k)) with hp
  have hsplit := List.length_eq_length_filter_add (l := N) p
  have hbound : (N.filter fun k => !p k).length ≤ taken.length := by
    set M : List Nat := N.filter (fun k => !p k) with hM
    have hMnodup : M.Nodup := List.Nodup.filter _ hnodup
    have hmapnodup : (M.map (next_mcp_candidate pre yy)).Nodup :=
      List.Nodup.map (next_mcp_candidate_injective pre yy) hMnodup
    have hsub : (M.map (next_mcp_candidate pre yy)).toFinset ⊆ taken.toFinset := by
      intro x hx
      rw [List.mem_toFinset] at hx ⊢
      rw [List.mem_map] at hx
      obtain ⟨k, hk, rfl⟩ := hx
      rw [hM, List.mem_filter] at hk
      have := hk.2
      simp only [hp, Bool.not_not] at this
      exact List.elem_iff.mp this
    calc M.length = (M.map (next_mcp_candidate pre yy)).length := (List.length_map _ _).symm
      _ = (M.map (next_mcp_candidate pre yy)).toFinset.card :=
          (List.toFinset_card_of_nodup hmapnodup).symm
      _ ≤ taken.toFinset.card := Finset.card_le_card hsub
      _ ≤ taken.length := List.toFinset_card_le taken
  omega

/-- C1: the ID allocator only yields strings of the form prefix-yy-nnnn
(04d-padded) with counter values at least the start value; the counter
values of successive yields are strictly increasing; no yielded string is
a member of the taken set; a taken entry that is not literally equal to
some candidate string has no effect on the yielded sequence; and each
entry of the taken set suppresses at most one loop iteration, so the
sequence is unbounded as the loop runs on. -/
theorem allocator_correct (pre yy : String) (taken : List String) (start steps : Nat) :
    next_mcp_id_yields pre yy taken start steps =
        (next_mcp_id_indices pre yy taken start steps).map (next_mcp_candidate pre yy)
  ∧ (next_mcp_id_indices pre yy taken start steps).Pairwise (· < ·)
  ∧ (∀ n ∈ next_mcp_id_indices pre yy taken start steps,
        start ≤ n ∧ next_mcp_candidate pre yy n ∉ taken)
  ∧ (∀ s ∈ next_mcp_id_yields pre yy taken start steps, s ∉ taken)
  ∧ (∀ s : String, (∀ n : Nat, s ≠ next_mcp_candidate pre yy n) →
        next_mcp_id_yields pre yy (s :: taken) start steps =
          next_mcp_id_yields pre yy taken start steps)
  ∧ steps - taken.length ≤ (next_mcp_id_yields pre yy taken start steps).length :=
  ⟨next_mcp_id_yields_eq_map pre yy taken start steps,
   next_mcp_id_indices_sorted pre yy taken start steps,
   next_mcp_id_indices_mem pre yy taken start steps,
   next_mcp_id_yields_not_taken pre yy taken start steps,
   next_mcp_id_yields_ignores_non_candidates pre yy taken start steps,
   next_mcp_id_yields_length pre yy taken start steps⟩

theorem exists_free (pre yy : String) (taken : List String) (n : Nat) :
    ∃ m : Nat, m ≤ taken.length ∧ next_mcp_candidate pre yy (n + m) ∉ taken := by
  by_contra hall
  push_neg at hall
  have hmem : ∀ m : Nat, m ≤ taken.length → next_mcp_candidate pre yy (n + m) ∈ taken :=
    hall
  classical
  set S : Finset String :=
    (Finset.range (taken.length + 1)).image (fun m => next_mcp_candidate pre yy (n + m))
    with hS
  have hinj : Function.Injective (fun m => next_mcp_candidate pre yy (n + m)) := by
    intro a b hab
    have := next_mcp_candidate_injective pre yy hab
    omega
  have hcard : S.card = taken.length + 1 := by
    rw [hS, Finset.card_image_of_injective _ hinj, Finset.card_range]
  have hsub : S ⊆ taken.toFinset := by
    intro x hx
    rw [hS, Finset.mem_image] at hx
    obtain ⟨m, hm, rfl⟩ := hx
    rw [Finset.mem_range] at hm
    rw [List.mem_toFinset]
    exact hmem m (by omega)
  have := Finset.card_le_card hsub
  have := List.toFinset_card_le taken
  omega

theorem findFree_spec (pre yy : String) (taken : List String) :
    ∀ fuel n : Nat, (∃ m : Nat, m < fuel ∧ next_mcp_candidate pre yy (n + m) ∉ taken) →
      ∃ k : Nat, findFree pre yy taken fuel n = some k ∧ n ≤ k ∧
        next_mcp_candidate pre yy k ∉ taken ∧
        ∀ j : Nat, n ≤ j → j < k → next_mcp_candidate pre yy j ∈ taken := by
  intro fuel
  induction fuel with
  | zero => intro n h; obtain ⟨m, hm, _⟩ := h; omega
  | succ f ih =>
    intro n h
    by_cases hn : next_mcp_candidate pre yy n ∈ taken
    · have hstep : findFree pre yy taken (f + 1) n = findFree pre yy taken f (n + 1) := by
        show (if taken.contains (next_mcp_candidate pre yy n) then _ else _) = _
        rw [if_pos (List.elem_iff.mpr hn)]
      obtain ⟨m, hm, hfree⟩ := h
      have hm0 : m ≠ 0 := by
        intro h0
        rw [h0, Nat.add_zero] at hfree
        exact hfree hn
      obtain ⟨k, hk, hnk, hkfree, hleast⟩ := ih (n + 1)
        ⟨m - 1, by omega, by
          have : n + 1 + (m - 1) = n + m := by omega
          rw [this]; exact hfree⟩
      refine ⟨k, by rw [hstep]; exact hk, by omega, hkfree, ?_⟩
      intro j hj1 hj2
      rcases Nat.eq_or_lt_of_le hj1 with rfl | hlt
      · exact hn
      · exact hleast j hlt hj2
    · refine ⟨n, ?_, le_rfl, hn, fun j h1 h2 => absurd (lt_of_le_of_lt h1 h2) (lt_irrefl _)⟩
      show (if taken.contains (next_mcp_candidate pre yy n) then _ else _) = _
      rw [if_neg]
      intro hb
      exact hn (List.elem_iff.mp hb)

theorem next_free_spec (pre yy : String) (taken : List String) (n : Nat) :
    n ≤ next_free pre yy taken n ∧
    next_mcp_candidate pre yy (next_free pre yy taken n) ∉ taken ∧
    ∀ j : Nat, n ≤ j → j < next_free pre yy taken n →
      next_mcp_candidate pre yy j ∈ taken := by
  obtain ⟨m, hm, hfree⟩ := exists_free pre yy taken n
  obtain ⟨k, hk, hnk, hkfree, hleast⟩ :=
    findFree_spec pre yy taken (taken.length + 1) n ⟨m, by omega, hfree⟩
  unfold next_free
  rw [hk]
  exact ⟨hnk, hkfree, hleast⟩

theorem makePdfOps_draws (cards : List StudentCard) :
    ∀ i : Nat, (makePdfOps cards i).filterMap drawOf =
      (cards.enumFrom i).map (fun p => (cardX p.1, cardY p.1, p.2)) := by
  induction cards with
  | nil =>
    intro i
    show (if i % (COLS * ROWS) ≠ 0 then [PdfOp.showPage] else []).filterMap drawOf = []
    split <;> rfl
  | cons c rest ih =>
    intro i
    show (PdfOp.draw (cardX i) (cardY i) c ::
        ((if (i + 1) % (COLS * ROWS) = 0 then [PdfOp.showPage] else []) ++
          makePdfOps rest (i + 1))).filterMap drawOf = _
    rw [List.filterMap_cons, List.filterMap_append]
    have hchunk : (if (i + 1) % (COLS * ROWS) = 0 then [PdfOp.showPage]
        else ([] : List PdfOp)).filterMap drawOf = [] := by
      split <;> rfl
    rw [hchunk]
    show (cardX i, cardY i, c) :: (makePdfOps rest (i + 1)).filterMap drawOf = _
    rw [ih (i + 1)]
    rfl

/-- C2: make_pdf places every input card exactly once, in input order;
the card at 0-based position i goes to column i mod COLS and row
(i div COLS) mod ROWS, at bottom-left coordinate
x = MARGIN_X + column times (CARD_W + GAP_X) and
y = PAGE_H - MARGIN_Y - (row + 1) times CARD_H - row times GAP_Y. -/
theorem layout_placement (cards : List StudentCard) :
    (make_pdf cards).filterMap drawOf =
      cards.enum.map (fun p =>
        (MARGIN_X + ((p.1 % COLS : Nat) : ℚ) * (CARD_W + GAP_X),
         PAGE_H - MARGIN_Y - (((p.1 / COLS) % ROWS : Nat) + 1 : ℚ) * CARD_H -
           (((p.1 / COLS) % ROWS : Nat) : ℚ) * GAP_Y,
         p.2)) := by
  show (makePdfOps cards 0).filterMap drawOf = _
  rw [makePdfOps_draws cards 0]
  rfl

theorem makePdfOps_page_count (cards : List StudentCard) :
    ∀ i : Nat, (makePdfOps cards i).countP isShowPage =
      (i + cards.length + 7) / 8 - i / 8 := by
  have hCR : COLS * ROWS = 8 := rfl
  induction cards with
  | nil =>
    intro i
    show (if i % (COLS * ROWS) ≠ 0 then [PdfOp.showPage] else []).countP isShowPage = _
    rw [hCR]
    split <;> rename_i h <;> simp [List.countP_cons, isShowPage] <;> omega
  | cons c rest ih =>
    intro i
    show (PdfOp.draw (cardX i) (cardY i) c ::
        ((if (i + 1) % (COLS * ROWS) = 0 then [PdfOp.showPage] else []) ++
          makePdfOps rest (i + 1))).countP isShowPage = _
    rw [List.countP_cons, List.countP_append, ih (i + 1), hCR]
    have hchunk : (if (i + 1) % 8 = 0 then [PdfOp.showPage]
        else ([] : List PdfOp)).countP isShowPage = if (i + 1) % 8 = 0 then 1 else 0 := by
      split <;> simp [List.countP_cons, isShowPage]
    rw [hchunk]
    show (if (i + 1) % 8 = 0 then 1 else 0) + ((i + 1 + rest.length + 7) / 8 - (i + 1) / 8)
        + (if isShowPage (PdfOp.draw (cardX i) (cardY i) c) = true then 1 else 0)
        = (i + (rest.length + 1) + 7) / 8 - i / 8
    have hdraw : isShowPage (PdfOp.draw (cardX i) (cardY i) c) = false := rfl
    rw [hdraw]
    split <;> rename_i h <;> simp <;> omega

/-- C3: make_pdf emits exactly the ceiling of K over COLS times ROWS
pages for K input cards (8 cards per 2 x 4 page), the trailing partially
filled page included: when K is not a multiple of the grid size the page
count is K div 8 plus one. -/
theorem page_count (cards : List StudentCard) :
    (make_pdf cards).countP isShowPage =
        (cards.length + COLS * ROWS - 1) / (COLS * ROWS)
  ∧ (cards.length % (COLS * ROWS) ≠ 0 →
      (make_pdf cards).countP isShowPage = cards.length / (COLS * ROWS) + 1) := by
  have hCR : COLS * ROWS = 8 := rfl
  have h := makePdfOps_page_count cards 0
  constructor
  · show (makePdfOps cards 0).countP isShowPage = _
    rw [h, hCR]
    omega
  · intro hne
    rw [hCR] at hne
    show (makePdfOps cards 0).countP isShowPage = _
    rw [h, hCR]
    omega

theorem head?_dropWhile_false (p : Char → Bool) :
    ∀ (l : List Char) (c : Char), (l.dropWhile p).head? = some c → p c = false := by
  intro l
  induction l with
  | nil => intro c h; cases h
  | cons a t ih =>
    intro c h
    rw [List.dropWhile_cons] at h
    by_cases ha : p a = true
    · rw [if_pos ha] at h
      exact ih c h
    · rw [if_neg ha] at h
      cases h
      exact Bool.eq_false_iff.mpr ha

theorem dropWhile_dropWhile (p : Char → Bool) (l : List Char) :
    (l.dropWhile p).dropWhile p = l.dropWhile p := by
  cases h : l.dropWhile p with
  | nil => rfl
  | cons c t =>
    have hc : p c = false := head?_dropWhile_false p l c (by rw [h]; rfl)
    rw [List.dropWhile_cons, if_neg (by rw [hc]; exact Bool.false_ne_true)]

theorem mem_dropWhile_of_not (p : Char → Bool) :
    ∀ (l : List Char) (c : Char), c ∈ l → p c = false → c ∈ l.dropWhile p := by
  intro l
  induction l with
  | nil => intro c h; cases h
  | cons a t ih =>
    intro c hmem hc
    rw [List.dropWhile_cons]
    by_cases ha : p a = true
    · rw [if_pos ha]
      rcases List.mem_cons.mp hmem with rfl | hm
      · rw [hc] at ha; cases ha
      · exact ih c hm hc
    · rw [if_neg ha]
      exact hmem

theorem mem_pyStripData (l : List Char) (c : Char) (hmem : c ∈ l)
    (hc : Char.isWhitespace c = false) : c ∈ pyStripData l := by
  unfold pyStripData
  rw [List.mem_reverse]
  apply mem_dropWhile_of_not _ _ _ _ hc
  rw [List.mem_reverse]
  exact mem_dropWhile_of_not _ _ _ hmem hc

theorem pyStripData_head (l : List Char) (c : Char)
    (h : (pyStripData l).head? = some c) : Char.isWhitespace c = false := by
  set d := l.dropWhile Char.isWhitespace with hd
  obtain ⟨pre, hpre⟩ := List.dropWhile_suffix (l := d.reverse) Char.isWhitespace
  have hdecomp : d = pyStripData l ++ pre.reverse := by
    have h2 := congrArg List.reverse hpre
    rw [List.reverse_append, List.reverse_reverse] at h2
    exact h2.symm
  cases hps : pyStripData l with
  | nil => rw [hps] at h; cases h
  | cons c0 t =>
    rw [hps] at h
    cases h
    have : d.head? = some c := by
      rw [hdecomp, hps]
      rfl
    exact head?_dropWhile_false Char.isWhitespace l c this

theorem pyStripData_idem (l : List Char) : pyStripData (pyStripData l) = pyStripData l := by
  have h1 : (pyStripData l).dropWhile Char.isWhitespace = pyStripData l := by
    cases hps : pyStripData l with
    | nil => rfl
    | cons c t =>
      have hc : Char.isWhitespace c = false := pyStripData_head l c (by rw [hps]; rfl)
      rw [List.dropWhile_cons, if_neg (by rw [hc]; exact Bool.false_ne_true)]
  show ((((pyStripData l).dropWhile Char.isWhitespace).reverse).dropWhile
      Char.isWhitespace).reverse = pyStripData l
  rw [h1]
  show (((l.dropWhile Char.isWhitespace).reverse.dropWhile
      Char.isWhitespace).reverse.reverse.dropWhile Char.isWhitespace).reverse
    = pyStripData l
  rw [List.reverse_reverse, dropWhile_dropWhile]
  rfl

theorem pyStrip_idem (s : String) : pyStrip (pyStrip s) = pyStrip s :=
  String.ext (pyStripData_idem s.data)

theorem pyStrip_ne_empty (s : String) (c : Char) (hmem : c ∈ s.data)
    (hc : Char.isWhitespace c = false) : pyStrip s ≠ "" := by
  intro h
  have hdata := congrArg String.data h
  have : c ∈ pyStripData s.data := mem_pyStripData s.data c hmem hc
  rw [show (pyStrip s).data = pyStripData s.data from rfl] at hdata
  rw [hdata] at this
  cases this

theorem dash_mem_candidate (pre yy : String) (n : Nat) :
    '-' ∈ (next_mcp_candidate pre yy n).data := by
  show '-' ∈ (pre ++ "-" ++ yy ++ "-" ++ pad4 n).data
  simp only [String.data_append]
  refine List.mem_append.mpr (Or.inl ?_)
  refine List.mem_append.mpr (Or.inl ?_)
  refine List.mem_append.mpr (Or.inl ?_)
  exact List.mem_append.mpr (Or.inr (by decide))

theorem candidate_strip_ne_empty (pre yy : String) (n : Nat) :
    pyStrip (next_mcp_candidate pre yy n) ≠ "" :=
  pyStrip_ne_empty _ '-' (dash_mem_candidate pre yy n) (by decide)

theorem candidate_ne_empty (pre yy : String) (n : Nat) :
    next_mcp_candidate pre yy n ≠ "" := by
  intro h
  have := dash_mem_candidate pre yy n
  rw [h] at this
  cases this

theorem find?_filter_of_imp {α : Type} (p q : α → Bool) (l : List α)
    (himp : ∀ x, p x = true → q x = true) : (l.filter q).find? p = l.find? p := by
  induction l with
  | nil => rfl
  | cons a t ih =>
    rw [List.filter_cons]
    by_cases hq : q a = true
    · rw [if_pos hq]
      by_cases hp : p a = true
      · rw [List.find?_cons_of_pos _ hp, List.find?_cons_of_pos _ hp]
      · rw [List.find?_cons_of_neg _ hp, List.find?_cons_of_neg _ hp, ih]
    · rw [if_neg hq]
      have hp : ¬p a = true := fun hpa => hq (himp a hpa)
      rw [List.find?_cons_of_neg _ hp, ih]

theorem rowGet_rowSet_self (r : Row) (h v : String) : rowGet (rowSet r h v) h = v := by
  unfold rowGet rowSet
  rw [List.find?_cons_of_pos _ (by simp)]
  rfl

theorem rowGet_rowSet_ne (r : Row) (h h2 v : String) (hne : h2 ≠ h) :
    rowGet (rowSet r h v) h2 = rowGet r h2 := by
  unfold rowGet rowSet
  have hhead : ¬((h, v).1 == h2) = true := by
    simp only [beq_iff_eq]
    exact fun he => hne he.symm
  have hcons : List.find? (fun p => p.1 == h2) ((h, v) :: List.filter (fun p => p.1 != h) r)
      = List.find? (fun p => p.1 == h2) (List.filter (fun p => p.1 != h) r) :=
    List.find?_cons_of_neg _ hhead
  rw [hcons, find?_filter_of_imp]
  intro x hx
  rw [beq_iff_eq] at hx
  simp only [bne_iff_ne, ne_eq, hx]
  exact hne

theorem headersLower_some (headers : List String) (key h : String)
    (hl : headersLower headers key = some h) : pyLower h = key ∧ h ∈ headers := by
  unfold headersLower at hl
  have h1 := List.find?_some hl
  have h2 := List.mem_of_find?_eq_some hl
  rw [beq_iff_eq] at h1
  exact ⟨h1, List.mem_reverse.mp h2⟩

theorem missingHeaders_ne_nil_of_none (headers : List String) (key : String)
    (hkey : key ∈ requiredHeaders) (hnone : headersLower headers key = none) :
    missingHeaders headers ≠ [] := by
  have : key ∈ missingHeaders headers := by
    unfold missingHeaders
    rw [List.mem_filter]
    exact ⟨hkey, by rw [hnone]; rfl⟩
  exact List.ne_nil_of_mem this

/-- C4: the batch importer fails exactly when a required header (matched
case-insensitively) is absent; the error value lists exactly the absent
required headers; and in the failing case no row is processed at all:
the outcome is the same error whatever the data rows are, and no card,
updated row or allocation is produced. -/
theorem header_validation (headers : List String) (rows : List Row) (auto : Bool)
    (pre yy : String) (start : Nat) :
    ((∃ ms, runBatch headers rows auto pre yy start = Except.error ms) ↔
        missingHeaders headers ≠ [])
  ∧ (∀ ms, runBatch headers rows auto pre yy start = Except.error ms →
        ms = missingHeaders headers
      ∧ (∀ h, h ∈ ms ↔ h ∈ requiredHeaders ∧ headersLower headers h = none)
      ∧ (∀ rows2 : List Row, runBatch headers rows2 auto pre yy start =
          Except.error ms)) := by
  rcases h1 : headersLower headers "student id" with _ | sidH
  case none =>
    have herr : ∀ rows2 : List Row, runBatch headers rows2 auto pre yy start =
        Except.error (missingHeaders headers) := by
      intro rows2
      unfold runBatch
      rw [h1]
    have hne := missingHeaders_ne_nil_of_none headers "student id" (by
      unfold requiredHeaders; exact List.mem_cons_self _ _) h1
    refine ⟨⟨fun _ => hne, fun _ => ⟨_, herr rows⟩⟩, ?_⟩
    intro ms hms
    rw [herr rows] at hms
    cases hms
    refine ⟨rfl, ?_, herr⟩
    intro h
    unfold missingHeaders
    rw [List.mem_filter, Option.isNone_iff_eq_none]
  case some =>
    rcases h2 : headersLower headers "first name" with _ | fnH
    case none =>
      have herr : ∀ rows2 : List Row, runBatch headers rows2 auto pre yy start =
          Except.error (missingHeaders headers) := by
        intro rows2
        unfold runBatch
        rw [h1, h2]
      have hne := missingHeaders_ne_nil_of_none headers "first name" (by
        unfold requiredHeaders; simp) h2
      refine ⟨⟨fun _ => hne, fun _ => ⟨_, herr rows⟩⟩, ?_⟩
      intro ms hms
      rw [herr rows] at hms
      cases hms
      refine ⟨rfl, ?_, herr⟩
      intro h
      unfold missingHeaders
      rw [List.mem_filter, Option.isNone_iff_eq_none]
    case some =>
      rcases h3 : headersLower headers "last name" with _ | lnH
      case none =>
        have herr : ∀ rows2 : List Row, runBatch headers rows2 auto pre yy start =
            Except.error (missingHeaders headers) := by
          intro rows2
          unfold runBatch
          rw [h1, h2, h3]
        have hne := missingHeaders_ne_nil_of_none headers "last name" (by
          unfold requiredHeaders; simp) h3
        refine ⟨⟨fun _ => hne, fun _ => ⟨_, herr rows⟩⟩, ?_⟩
        intro ms hms
        rw [herr rows] at hms
        cases hms
        refine ⟨rfl, ?_, herr⟩
        intro h
        unfold missingHeaders
        rw [List.mem_filter, Option.isNone_iff_eq_none]
      case some =>
        have hok : ∀ rows2 : List Row, ∃ res, runBatch headers rows2 auto pre yy start =
            Except.ok res := by
          intro rows2
          unfold runBatch
          rw [h1, h2, h3]
          exact ⟨_, rfl⟩
        have hmiss : missingHeaders headers = [] := by
          unfold missingHeaders requiredHeaders
          simp [List.filter, h1, h2, h3]
        constructor
        · constructor
          · intro hex
            obtain ⟨ms, hms⟩ := hex
            obtain ⟨res, hres⟩ := hok rows
            rw [hres] at hms
            cases hms
          · intro hne
            exact absurd hmiss hne
        · intro ms hms
          obtain ⟨res, hres⟩ := hok rows
          rw [hres] at hms
          cases hms

theorem stepRow_no_assign (auto : Bool) (pre yy : String) (taken : List String)
    (sidH fnH lnH : String) (gyH : Option String) (n : Nat) (r : Row)
    (h : ¬(pyStrip (rowGet r sidH) = "" ∧ auto = true)) :
    stepRow auto pre yy taken sidH fnH lnH gyH n r =
      (n, r,
        if pyStrip (rowGet r sidH) ≠ "" ∧ pyStrip (rowGet r fnH) ≠ "" ∧
            pyStrip (rowGet r lnH) ≠ "" then
          some ⟨pyStrip (rowGet r sidH), pyStrip (rowGet r fnH), pyStrip (rowGet r lnH),
            match gyH with | some hgy => pyStrip (rowGet r hgy) | none => ""⟩
        else none) := by
  simp only [stepRow]
  rw [if_neg h]

theorem stepRow_assign (pre yy : String) (taken : List String)
    (sidH fnH lnH : String) (gyH : Option String) (n : Nat) (r : Row)
    (h : pyStrip (rowGet r sidH) = "") :
    stepRow true pre yy taken sidH fnH lnH gyH n r =
      (next_free pre yy taken n + 1,
       rowSet r sidH (next_mcp_candidate pre yy (next_free pre yy taken n)),
       if next_mcp_candidate pre yy (next_free pre yy taken n) ≠ "" ∧
           pyStrip (rowGet r fnH) ≠ "" ∧ pyStrip (rowGet r lnH) ≠ "" then
         some ⟨next_mcp_candidate pre yy (next_free pre yy taken n),
           pyStrip (rowGet r fnH), pyStrip (rowGet r lnH),
           match gyH with | some hgy => pyStrip (rowGet r hgy) | none => ""⟩
       else none) := by
  simp only [stepRow]
  rw [if_pos ⟨h, trivial⟩]

theorem stepRow_card_iff (auto : Bool) (pre yy : String) (taken : List String)
    (sidH fnH lnH : String) (gyH : Option String) (n : Nat) (r : Row)
    (hfn : fnH ≠ sidH) (hln : lnH ≠ sidH) :
    ((stepRow auto pre yy taken sidH fnH lnH gyH n r).2.2).isSome
      = viableRow sidH fnH lnH (stepRow auto pre yy taken sidH fnH lnH gyH n r).2.1 := by
  by_cases hc : pyStrip (rowGet r sidH) = "" ∧ auto = true
  · obtain ⟨hsid, hauto⟩ := hc
    subst hauto
    rw [stepRow_assign pre yy taken sidH fnH lnH gyH n r hsid]
    simp only [viableRow]
    rw [rowGet_rowSet_self, rowGet_rowSet_ne _ _ _ _ hfn, rowGet_rowSet_ne _ _ _ _ hln]
    have h1 : next_mcp_candidate pre yy (next_free pre yy taken n) ≠ "" :=
      candidate_ne_empty pre yy _
    have h2 : pyStrip (next_mcp_candidate pre yy (next_free pre yy taken n)) ≠ "" :=
      candidate_strip_ne_empty pre yy _
    by_cases hf : pyStrip (rowGet r fnH) = "" <;> by_cases hl : pyStrip (rowGet r lnH) = "" <;>
      simp [hf, hl, h1, h2]
  · rw [stepRow_no_assign auto pre yy taken sidH fnH lnH gyH n r hc]
    simp only [viableRow]
    by_cases hs : pyStrip (rowGet r sidH) = "" <;>
      by_cases hf : pyStrip (rowGet r fnH) = "" <;>
      by_cases hl : pyStrip (rowGet r lnH) = "" <;>
      simp [hs, hf, hl]

theorem processRows_cons (auto : Bool) (pre yy : String) (taken : List String)
    (sidH fnH lnH : String) (gyH : Option String) (n : Nat) (r : Row) (rest : List Row) :
    processRows auto pre yy taken sidH fnH lnH gyH n (r :: rest) =
      (match (stepRow auto pre yy taken sidH fnH lnH gyH n r).2.2 with
       | some c => c :: (processRows auto pre yy taken sidH fnH lnH gyH
           (stepRow auto pre yy taken sidH fnH lnH gyH n r).1 rest).1
       | none => (processRows auto pre yy taken sidH fnH lnH gyH
           (stepRow auto pre yy taken sidH fnH lnH gyH n r).1 rest).1,
       (stepRow auto pre yy taken sidH fnH lnH gyH n r).2.1 ::
         (processRows auto pre yy taken sidH fnH lnH gyH
           (stepRow auto pre yy taken sidH fnH lnH gyH n r).1 rest).2.1,
       (processRows auto pre yy taken sidH fnH lnH gyH
         (stepRow auto pre yy taken sidH fnH lnH gyH n r).1 rest).2.2) := rfl

theorem processRows_length (auto : Bool) (pre yy : String) (taken : List String)
    (sidH fnH lnH : String) (gyH : Option String) :
    ∀ (rows : List Row) (n : Nat),
      (processRows auto pre yy taken sidH fnH lnH gyH n rows).2.1.length = rows.length := by
  intro rows
  induction rows with
  | nil => intro n; rfl
  | cons r rest ih =>
    intro n
    rw [processRows_cons]
    show ((stepRow auto pre yy taken sidH fnH lnH gyH n r).2.1 ::
        (processRows auto pre yy taken sidH fnH lnH gyH
          (stepRow auto pre yy taken sidH fnH lnH gyH n r).1 rest).2.1).length
      = (r :: rest).length
    rw [List.length_cons, List.length_cons, ih]

theorem processRows_cards_length (auto : Bool) (pre yy : String) (taken : List String)
    (sidH fnH lnH : String) (gyH : Option String)
    (hfn : fnH ≠ sidH) (hln : lnH ≠ sidH) :
    ∀ (rows : List Row) (n : Nat),
      (processRows auto pre yy taken sidH fnH lnH gyH n rows).1.length
        = ((processRows auto pre yy taken sidH fnH lnH gyH n rows).2.1.filter
            (viableRow sidH fnH lnH)).length := by
  intro rows
  induction rows with
  | nil => intro n; rfl
  | cons r rest ih =>
    intro n
    rw [processRows_cons]
    have hstep := stepRow_card_iff auto pre yy taken sidH fnH lnH gyH n r hfn hln
    cases hcard : (stepRow auto pre yy taken sidH fnH lnH gyH n r).2.2 with
    | none =>
      rw [hcard] at hstep
      simp only [Option.isSome_none] at hstep
      show (processRows auto pre yy taken sidH fnH lnH gyH
          (stepRow auto pre yy taken sidH fnH lnH gyH n r).1 rest).1.length
        = (List.filter (viableRow sidH fnH lnH)
            ((stepRow auto pre yy taken sidH fnH lnH gyH n r).2.1 ::
              (processRows auto pre yy taken sidH fnH lnH gyH
                (stepRow auto pre yy taken sidH fnH lnH gyH n r).1 rest).2.1)).length
      rw [List.filter_cons, if_neg (by rw [← hstep]; exact Bool.false_ne_true)]
      exact ih _
    | some c =>
      rw [hcard] at hstep
      simp only [Option.isSome_some] at hstep
      show (c :: (processRows auto pre yy taken sidH fnH lnH gyH
          (stepRow auto pre yy taken sidH fnH lnH gyH n r).1 rest).1).length
        = (List.filter (viableRow sidH fnH lnH)
            ((stepRow auto pre yy taken sidH fnH lnH gyH n r).2.1 ::
              (processRows auto pre yy taken sidH fnH lnH gyH
                (stepRow auto pre yy taken sidH fnH lnH gyH n r).1 rest).2.1)).length
      rw [List.filter_cons, if_pos hstep.symm, List.length_cons, List.length_cons, ih]

theorem stepRow_sid_nonempty (pre yy : String) (taken : List String)
    (sidH fnH lnH : String) (gyH : Option String) (n : Nat) (r : Row) :
    pyStrip (rowGet (stepRow true pre yy taken sidH fnH lnH gyH n r).2.1 sidH) ≠ "" := by
  by_cases hsid : pyStrip (rowGet r sidH) = ""
  · rw [stepRow_assign pre yy taken sidH fnH lnH gyH n r hsid]
    show pyStrip (rowGet (rowSet r sidH _) sidH) ≠ ""
    rw [rowGet_rowSet_self]
    exact candidate_strip_ne_empty pre yy _
  · rw [stepRow_no_assign true pre yy taken sidH fnH lnH gyH n r (by
      intro hcon; exact hsid hcon.1)]
    exact hsid

theorem processRows_sid_nonempty (pre yy : String) (taken : List String)
    (sidH fnH lnH : String) (gyH : Option String) :
    ∀ (rows : List Row) (n : Nat) (r2 : Row),
      r2 ∈ (processRows true pre yy taken sidH fnH lnH gyH n rows).2.1 →
      pyStrip (rowGet r2 sidH) ≠ "" := by
  intro rows
  induction rows with
  | nil => intro n r2 h; cases h
  | cons r rest ih =>
    intro n r2 h
    rw [processRows_cons] at h
    rcases List.mem_cons.mp h with rfl | hm
    · exact stepRow_sid_nonempty pre yy taken sidH fnH lnH gyH n r
    · exact ih _ r2 hm

theorem processRows_fixpoint (auto : Bool) (pre yy : String) (taken : List String)
    (sidH fnH lnH : String) (gyH : Option String) :
    ∀ (rows : List Row) (n : Nat), (∀ r ∈ rows, pyStrip (rowGet r sidH) ≠ "") →
      (processRows auto pre yy taken sidH fnH lnH gyH n rows).2.1 = rows ∧
      (processRows auto pre yy taken sidH fnH lnH gyH n rows).2.2 = n := by
  intro rows
  induction rows with
  | nil => intro n _; exact ⟨rfl, rfl⟩
  | cons r rest ih =>
    intro n hall
    have hr : pyStrip (rowGet r sidH) ≠ "" := hall r (List.mem_cons_self _ _)
    have hstep := stepRow_no_assign auto pre yy taken sidH fnH lnH gyH n r (by
      intro hcon; exact hr hcon.1)
    have hrest := ih n (fun x hx => hall x (List.mem_cons_of_mem _ hx))
    rw [processRows_cons, hstep]
    exact ⟨by rw [hrest.1], hrest.2⟩

theorem rowGet_zip_map (f : String → String) :
    ∀ (headers : List String) (h : String), h ∈ headers →
      rowGet (headers.zip (headers.map f)) h = f h := by
  intro headers
  induction headers with
  | nil => intro h hh; cases hh
  | cons a t ih =>
    intro h hh
    show rowGet ((a, f a) :: t.zip (t.map f)) h = f h
    unfold rowGet
    by_cases hah : a = h
    · subst hah
      rw [List.find?_cons_of_pos _ (by simp)]
      rfl
    · have hcons : List.find? (fun p => p.1 == h) ((a, f a) :: t.zip (t.map f))
          = List.find? (fun p => p.1 == h) (t.zip (t.map f)) :=
        List.find?_cons_of_neg _ (by simpa using hah)
      rw [hcons]
      have hht : h ∈ t := by
        rcases List.mem_cons.mp hh with rfl | hm
        · exact absurd rfl hah
        · exact hm
      exact ih h hht

theorem exportRow_reimport (headers : List String) (r : Row) :
    exportRow headers (headers.zip (exportRow headers r)) = exportRow headers r := by
  unfold exportRow
  apply List.map_eq_map_iff.mpr
  intro h hh
  exact rowGet_zip_map (fun h2 => rowGet r h2) headers h hh

/-- C6: with auto-assign on, re-importing the exported updated CSV is
idempotent: the second pass succeeds, modifies no row, never advances the
ID generator past its start value (no new ID is allocated), and exports a
table identical to the first pass, so every row keeps the ID the first
pass gave it. -/
theorem batch_idempotent (headers : List String) (rows : List Row)
    (pre yy : String) (start : Nat) (res1 : BatchResult)
    (hrun : runBatch headers rows true pre yy start = Except.ok res1) :
    ∃ res2 : BatchResult,
      runBatch headers (reimport headers (exportTable headers res1.updatedRows))
          true pre yy start = Except.ok res2
    ∧ res2.updatedRows = reimport headers (exportTable headers res1.updatedRows)
    ∧ res2.finalState = start
    ∧ exportTable headers res2.updatedRows = exportTable headers res1.updatedRows := by
  rcases h1 : headersLower headers "student id" with _ | sidH
  case none => unfold runBatch at hrun; rw [h1] at hrun; cases hrun
  case some =>
  rcases h2 : headersLower headers "first name" with _ | fnH
  case none => unfold runBatch at hrun; rw [h1, h2] at hrun; cases hrun
  case some =>
  rcases h3 : headersLower headers "last name" with _ | lnH
  case none => unfold runBatch at hrun; rw [h1, h2, h3] at hrun; cases hrun
  case some =>
  unfold runBatch at hrun
  rw [h1, h2, h3] at hrun
  injection hrun with hres
  subst hres
  have hsidmem : sidH ∈ headers := (headersLower_some headers "student id" sidH h1).2
  set U : List Row := (processRows true pre yy (takenOf rows sidH) sidH fnH lnH
    (headersLower headers "grad year") start rows).2.1 with hU
  have hre : reimport headers (exportTable headers U)
      = U.map fun r => headers.zip (exportRow headers r) := by
    unfold reimport exportTable
    rw [List.map_map]
    rfl
  have hnon : ∀ rr ∈ reimport headers (exportTable headers U),
      pyStrip (rowGet rr sidH) ≠ "" := by
    intro rr hrr
    rw [hre, List.mem_map] at hrr
    obtain ⟨r0, hr0, rfl⟩ := hrr
    have : rowGet (headers.zip (exportRow headers r0)) sidH = rowGet r0 sidH := by
      unfold exportRow
      exact rowGet_zip_map (fun h2 => rowGet r0 h2) headers sidH hsidmem
    rw [this]
    exact processRows_sid_nonempty pre yy (takenOf rows sidH) sidH fnH lnH
      (headersLower headers "grad year") rows start r0 (by rw [← hU]; exact hr0)
  have hfix := processRows_fixpoint true pre yy
    (takenOf (reimport headers (exportTable headers U)) sidH) sidH fnH lnH
    (headersLower headers "grad year")
    (reimport headers (exportTable headers U)) start hnon
  refine ⟨_, by unfold runBatch; rw [h1, h2, h3], ?_, ?_, ?_⟩
  · exact hfix.1
  · exact hfix.2
  · show exportTable headers (processRows true pre yy _ sidH fnH lnH _ start
        (reimport headers (exportTable headers U))).2.1 = exportTable headers U
    rw [hfix.1, hre]
    unfold exportTable
    rw [List.map_map]
    apply List.map_eq_map_iff.mpr
    intro r0 _
    exact exportRow_reimport headers r0

/-- C5: on a CSV whose required headers are present, the batch run
succeeds; every input row appears in the output table; a row contributes
a card exactly when, after stripping and after any auto-assignment, its
ID, first name and last name are all non-empty (the per-row step makes
the card presence equal to the viability of the updated row); the
reported skip count is the number of non-viable updated rows, and cards
plus skipped account for all rows. In particular, on the two-row example
with a blank ID for Ann and ID S2 for Bo, auto-assign on with prefix MCP,
year 26 and start 1, Ann receives MCP-26-0001, S2 is untouched, two cards
are rendered and no row is skipped. -/
theorem batch_row_filtering (headers : List String) (rows : List Row) (auto : Bool)
    (pre yy : String) (start : Nat) (sidH fnH lnH : String)
    (h1 : headersLower headers "student id" = some sidH)
    (h2 : headersLower headers "first name" = some fnH)
    (h3 : headersLower headers "last name" = some lnH) :
    (∃ res : BatchResult,
      runBatch headers rows auto pre yy start = Except.ok res
    ∧ res.updatedRows.length = rows.length
    ∧ res.cards.length = (res.updatedRows.filter (viableRow sidH fnH lnH)).length
    ∧ res.skipped = (res.updatedRows.filter fun r => !viableRow sidH fnH lnH r).length
    ∧ res.cards.length + res.skipped = rows.length
    ∧ ∀ (n : Nat) (r : Row),
        ((stepRow auto pre yy (takenOf rows sidH) sidH fnH lnH
            (headersLower headers "grad year") n r).2.2).isSome
          = viableRow sidH fnH lnH
              (stepRow auto pre yy (takenOf rows sidH) sidH fnH lnH
                (headersLower headers "grad year") n r).2.1)
    ∧ runBatch ["Student ID", "First Name", "Last Name"]
        [[("Student ID", ""), ("First Name", "Ann"), ("Last Name", "Lee")],
         [("Student ID", "S2"), ("First Name", "Bo"), ("Last Name", "Ng")]]
        true "MCP" "26" 1
      = Except.ok ⟨[⟨"MCP-26-0001", "Ann", "Lee", ""⟩, ⟨"S2", "Bo", "Ng", ""⟩],
          [[("Student ID", "MCP-26-0001"), ("First Name", "Ann"), ("Last Name", "Lee")],
           [("Student ID", "S2"), ("First Name", "Bo"), ("Last Name", "Ng")]], 0, 2⟩ := by
  have hsidlow := (headersLower_some headers "student id" sidH h1).1
  have hfnlow := (headersLower_some headers "first name" fnH h2).1
  have hlnlow := (headersLower_some headers "last name" lnH h3).1
  have hfn : fnH ≠ sidH := by
    intro he
    rw [he, hsidlow] at hfnlow
    exact absurd hfnlow (by decide)
  have hln : lnH ≠ sidH := by
    intro he
    rw [he, hsidlow] at hlnlow
    exact absurd hlnlow (by decide)
  constructor
  · refine ⟨_, by unfold runBatch; rw [h1, h2, h3], ?_, ?_, rfl, ?_, ?_⟩
    · exact processRows_length auto pre yy (takenOf rows sidH) sidH fnH lnH
        (headersLower headers "grad year") rows start
    · exact processRows_cards_length auto pre yy (takenOf rows sidH) sidH fnH lnH
        (headersLower headers "grad year") hfn hln rows start
    · show (processRows auto pre yy (takenOf rows sidH) sidH fnH lnH
          (headersLower headers "grad year") start rows).1.length
        + ((processRows auto pre yy (takenOf rows sidH) sidH fnH lnH
            (headersLower headers "grad year") start rows).2.1.filter
              fun r => !viableRow sidH fnH lnH r).length = rows.length
      rw [processRows_cards_length auto pre yy (takenOf rows sidH) sidH fnH lnH
        (headersLower headers "grad year") hfn hln rows start]
      rw [← List.length_eq_length_filter_add (viableRow sidH fnH lnH)]
      exact processRows_length auto pre yy (takenOf rows sidH) sidH fnH lnH
        (headersLower headers "grad year") rows start
    · intro n r
      exact stepRow_card_iff auto pre yy (takenOf rows sidH) sidH fnH lnH
        (headersLower headers "grad year") n r hfn hln
  · rfl

/-- C9: with auto-assign on, a row whose stripped student ID is empty is
always assigned the next free generated ID, even when its first or last
name is empty: the generator counter is consumed and advanced past the
assigned value, the updated row carries the generated ID (so the exported
table contains it), and when first or last name is empty the row still
yields no card. -/
theorem autoassign_blank_rows (pre yy : String) (taken : List String)
    (sidH fnH lnH : String) (gyH : Option String) (n : Nat) (r : Row)
    (hsid : pyStrip (rowGet r sidH) = "") :
    (stepRow true pre yy taken sidH fnH lnH gyH n r).1 = next_free pre yy taken n + 1
  ∧ n < (stepRow true pre yy taken sidH fnH lnH gyH n r).1
  ∧ rowGet (stepRow true pre yy taken sidH fnH lnH gyH n r).2.1 sidH
      = next_mcp_candidate pre yy (next_free pre yy taken n)
  ∧ pyStrip (rowGet (stepRow true pre yy taken sidH fnH lnH gyH n r).2.1 sidH) ≠ ""
  ∧ ((pyStrip (rowGet r fnH) = "" ∨ pyStrip (rowGet r lnH) = "") →
      (stepRow true pre yy taken sidH fnH lnH gyH n r).2.2 = none)
  ∧ ∀ headers : List String, sidH ∈ headers →
      next_mcp_candidate pre yy (next_free pre yy taken n)
        ∈ exportRow headers (stepRow true pre yy taken sidH fnH lnH gyH n r).2.1 := by
  have hstep := stepRow_assign pre yy taken sidH fnH lnH gyH n r hsid
  have hle := (next_free_spec pre yy taken n).1
  rw [hstep]
  refine ⟨rfl, by omega, rowGet_rowSet_self r sidH _, ?_, ?_, ?_⟩
  · rw [rowGet_rowSet_self]
    exact candidate_strip_ne_empty pre yy _
  · intro hempty
    rcases hempty with he | he <;> rw [he] <;>
      · apply if_neg
        intro hcon
        rcases hcon with ⟨_, hb, hc⟩
        first
          | exact hb rfl
          | exact hc rfl
  · intro headers hmem
    unfold exportRow
    rw [List.mem_map]
    exact ⟨sidH, hmem, rowGet_rowSet_self r sidH _⟩

theorem batch_row_filtering_witness :
    (headersLower exHeaders "student id" = some "Student ID"
     ∧ headersLower exHeaders "first name" = some "First Name"
     ∧ headersLower exHeaders "last name" = some "Last Name")
  ∧ ((∃ res : BatchResult,
        runBatch exHeaders exRows true "MCP" "26" 1 = Except.ok res
      ∧ res.updatedRows.length = exRows.length
      ∧ res.cards.length = (res.updatedRows.filter
          (viableRow "Student ID" "First Name" "Last Name")).length
      ∧ res.skipped = (res.updatedRows.filter
          fun r => !viableRow "Student ID" "First Name" "Last Name" r).length
      ∧ res.cards.length + res.skipped = exRows.length
      ∧ ∀ (n : Nat) (r : Row),
          ((stepRow true "MCP" "26" (takenOf exRows "Student ID") "Student ID"
              "First Name" "Last Name" (headersLower exHeaders "grad year") n r).2.2).isSome
            = viableRow "Student ID" "First Name" "Last Name"
                (stepRow true "MCP" "26" (takenOf exRows "Student ID") "Student ID"
                  "First Name" "Last Name" (headersLower exHeaders "grad year") n r).2.1)
    ∧ runBatch ["Student ID", "First Name", "Last Name"]
        [[("Student ID", ""), ("First Name", "Ann"), ("Last Name", "Lee")],
         [("Student ID", "S2"), ("First Name", "Bo"), ("Last Name", "Ng")]]
        true "MCP" "26" 1
      = Except.ok ⟨[⟨"MCP-26-0001", "Ann", "Lee", ""⟩, ⟨"S2", "Bo", "Ng", ""⟩],
          [[("Student ID", "MCP-26-0001"), ("First Name", "Ann"), ("Last Name", "Lee")],
           [("Student ID", "S2"), ("First Name", "Bo"), ("Last Name", "Ng")]], 0, 2⟩) :=
  ⟨⟨rfl, rfl, rfl⟩,
   batch_row_filtering exHeaders exRows true "MCP" "26" 1 "Student ID" "First Name"
     "Last Name" rfl rfl rfl⟩

theorem batch_idempotent_witness :
    runBatch exHeaders exRows true "MCP" "26" 1 = Except.ok exRes
  ∧ ∃ res2 : BatchResult,
      runBatch exHeaders (reimport exHeaders (exportTable exHeaders exRes.updatedRows))
          true "MCP" "26" 1 = Except.ok res2
    ∧ res2.updatedRows = reimport exHeaders (exportTable exHeaders exRes.updatedRows)
    ∧ res2.finalState = 1
    ∧ exportTable exHeaders res2.updatedRows = exportTable exHeaders exRes.updatedRows :=
  ⟨rfl, batch_idempotent exHeaders exRows "MCP" "26" 1 exRes rfl⟩

theorem autoassign_blank_rows_witness :
    pyStrip (rowGet exBlankRow "Student ID") = ""
  ∧ ((stepRow true "MCP" "26" ["S9"] "Student ID" "First Name" "Last Name" none 1
        exBlankRow).1 = next_free "MCP" "26" ["S9"] 1 + 1
    ∧ 1 < (stepRow true "MCP" "26" ["S9"] "Student ID" "First Name" "Last Name" none 1
        exBlankRow).1
    ∧ rowGet (stepRow true "MCP" "26" ["S9"] "Student ID" "First Name" "Last Name" none 1
        exBlankRow).2.1 "Student ID"
        = next_mcp_candidate "MCP" "26" (next_free "MCP" "26" ["S9"] 1)
    ∧ pyStrip (rowGet (stepRow true "MCP" "26" ["S9"] "Student ID" "First Name"
        "Last Name" none 1 exBlankRow).2.1 "Student ID") ≠ ""
    ∧ ((pyStrip (rowGet exBlankRow "First Name") = ""
        ∨ pyStrip (rowGet exBlankRow "Last Name") = "") →
        (stepRow true "MCP" "26" ["S9"] "Student ID" "First Name" "Last Name" none 1
          exBlankRow).2.2 = none)
    ∧ ∀ headers : List String, "Student ID" ∈ headers →
        next_mcp_candidate "MCP" "26" (next_free "MCP" "26" ["S9"] 1)
          ∈ exportRow headers (stepRow true "MCP" "26" ["S9"] "Student ID" "First Name"
              "Last Name" none 1 exBlankRow).2.1) :=
  ⟨rfl, autoassign_blank_rows "MCP" "26" ["S9"] "Student ID" "First Name" "Last Name"
    none 1 exBlankRow rfl⟩

end CardGen

namespace Attendance

open CardGen (pyStrip pyLower parseDec pyStrip_idem)

/-- C7: the lookup reports exactly the configured seminar tabs whose
attendee set contains the queried ID, and the count is the length of
that list; a tab missing from the spreadsheet is loaded as the empty set
rather than an error, and an ID present in no tab gives an empty list
and count zero. -/
theorem attendance_lookup (sheet : Sheet) (tabs : List String) (sid : String) :
    (∀ t : String, t ∈ presentTabs sheet tabs sid ↔ t ∈ tabs ∧ sid ∈ loadTab sheet t)
  ∧ attendCount sheet tabs sid = (presentTabs sheet tabs sid).length
  ∧ (∀ t : String, sheet.find? (fun p => p.1 == t) = none → loadTab sheet t = [])
  ∧ ((∀ t ∈ tabs, sid ∉ loadTab sheet t) →
      presentTabs sheet tabs sid = [] ∧ attendCount sheet tabs sid = 0) := by
  refine ⟨?_, rfl, ?_, ?_⟩
  · intro t
    unfold presentTabs
    rw [List.mem_filter]
    constructor
    · intro ⟨h1, h2⟩
      exact ⟨h1, List.elem_iff.mp h2⟩
    · intro ⟨h1, h2⟩
      exact ⟨h1, List.elem_iff.mpr h2⟩
  · intro t h
    unfold loadTab
    rw [h]
  · intro hnone
    have hnil : presentTabs sheet tabs sid = [] := by
      unfold presentTabs
      rw [List.filter_eq_nil_iff]
      intro t ht hc
      exact hnone t ht (List.elem_iff.mp hc)
    exact ⟨hnil, by unfold attendCount; rw [hnil]; rfl⟩

/-- C8: a list of seminar names is displayed in numeric order when every
name in it parses as an integer and in lexicographic order otherwise; in
both cases the display is a permutation of the names; and the same rule
orders both the attended-seminars list and the overview table. -/
theorem seminar_sort_rule (ts : List String) (sheet : Sheet) (tabs : List String)
    (sid : String) :
    (displaySort ts).Perm ts
  ∧ ((∀ t ∈ ts, (pyInt? t).isSome) →
      displaySort ts = ts.insertionSort numLe ∧ (displaySort ts).Sorted numLe)
  ∧ ((¬ ∀ t ∈ ts, (pyInt? t).isSome) →
      displaySort ts = ts.insertionSort (· ≤ ·)
      ∧ (displaySort ts).Sorted (· ≤ · : String → String → Prop))
  ∧ attendedDisplay sheet tabs sid = displaySort (presentTabs sheet tabs sid)
  ∧ overviewTabs tabs = displaySort tabs := by
  refine ⟨?_, ?_, ?_, rfl, rfl⟩
  · unfold displaySort
    split
    · exact List.perm_insertionSort numLe ts
    · exact List.perm_insertionSort _ ts
  · intro hall
    have hb : (ts.all fun t => (pyInt? t).isSome) = true := List.all_eq_true.mpr hall
    unfold displaySort
    rw [if_pos hb]
    exact ⟨rfl, List.sorted_insertionSort numLe ts⟩
  · intro hnot
    have hb : ¬(ts.all fun t => (pyInt? t).isSome) = true := by
      intro hc
      exact hnot (List.all_eq_true.mp hc)
    unfold displaySort
    rw [if_neg hb]
    exact ⟨rfl, List.sorted_insertionSort _ ts⟩

/-- C10: every loaded attendee value is already stripped and its
lowercased (hence trimmed-and-lowercased) form is never the header word
studentid; consequently a queried ID that equals studentid in any letter
case is found in no tab: empty list and count zero. -/
theorem loader_filters_header_cells (sheet : Sheet) (t : String) :
    (∀ v ∈ loadTab sheet t, pyStrip v = v ∧ pyLower (pyStrip v) ≠ "studentid")
  ∧ (∀ (sid : String) (tabs : List String), pyLower sid = "studentid" →
      presentTabs sheet tabs sid = [] ∧ attendCount sheet tabs sid = 0) := by
  have hmem : ∀ (t2 : String), ∀ v ∈ loadTab sheet t2,
      pyStrip v = v ∧ pyLower (pyStrip v) ≠ "studentid" := by
    intro t2 v hv
    unfold loadTab at hv
    rcases hfind : sheet.find? (fun p => p.1 == t2) with _ | p
    · rw [hfind] at hv; cases hv
    · rw [hfind] at hv
      rw [List.mem_map] at hv
      obtain ⟨w, hw, rfl⟩ := hv
      rw [List.mem_filter] at hw
      have hcond := hw.2
      rw [Bool.and_eq_true, Bool.and_eq_true] at hcond
      obtain ⟨⟨_, _⟩, hlow⟩ := hcond
      rw [bne_iff_ne] at hlow
      refine ⟨pyStrip_idem w, ?_⟩
      rw [pyStrip_idem w]
      exact hlow
  refine ⟨hmem t, ?_⟩
  intro sid tabs hsid
  have hnot : ∀ t2 ∈ tabs, sid ∉ loadTab sheet t2 := by
    intro t2 _ hin
    have := (hmem t2 sid hin).2
    rw [(hmem t2 sid hin).1, hsid] at this
    exact this rfl
  have hnil : presentTabs sheet tabs sid = [] := by
    unfold presentTabs
    rw [List.filter_eq_nil_iff]
    intro t2 ht2 hc
    exact hnot t2 ht2 (List.elem_iff.mp hc)
  exact ⟨hnil, by unfold attendCount; rw [hnil]; rfl⟩

end Attendance
